import Mathlib

/-!
Shallow embedding of `opensky2qif.py`, a converter from an OpenSky
payment-details CSV export to a QIF (Quicken Interchange Format) file.

Modelling conventions:
* Python floats holding monetary amounts are modelled as rationals (`ℚ`);
  `round(x, 2)` is modelled by `round2` (round to an integer number of cents).
* Python strings are Lean `String`s; character-level operations go through
  `String.toList`.
* Python dicts (insertion ordered) are association lists `List (String × β)`
  where a fresh key is appended at the end.
* Functions that print lines to a file instead return the `List String` of
  emitted lines; `app_ui.warning` calls are returned as a list of messages.
* `normalize_date` can raise `IndexError` in Python, so its embedding returns
  `Option`.
-/

namespace OpenSky2Qif

/-- Monetary amounts (Python `float` in the source) are modelled as `ℚ`. -/
abbrev Money := ℚ

/-- Model of Python `round(x, 2)`: round to the nearest multiple of 1/100
(ties handled by `round`, i.e. half-up; the source's float banker's rounding
differs only on exact ties, which no claim depends on). -/
def round2 (q : ℚ) : ℚ := (round (q * 100) : ℤ) / 100

/-- Model of Python `"{:.2f}".format(x)`: sign, integer part, dot, and exactly
two fractional digits of the amount rounded to cents. -/
def format2 (q : ℚ) : String :=
  let n : ℤ := round (q * 100)
  let cents : Nat := n.natAbs % 100
  (if n < 0 then "-" else "")
    ++ toString (n.natAbs / 100)
    ++ "."
    ++ (if cents < 10 then "0" else "")
    ++ toString cents

/-- Split a list of characters on a separator character, Python
`str.split(sep)` style: `splitOnChar c [] = [[]]` and every occurrence of the
separator starts a new chunk. -/
def splitOnChar (c : Char) : List Char → List (List Char)
  | [] => [[]]
  | x :: xs =>
    if x = c then [] :: splitOnChar c xs
    else
      match splitOnChar c xs with
      | [] => [[x]]
      | f :: r => (x :: f) :: r

/-- The numeric value of a decimal digit character, if it is one. -/
def digitVal? (c : Char) : Option Nat :=
  if c.isDigit then some (c.toNat - Char.toNat '0') else none

/-- Read a (possibly empty) run of decimal digits as a natural number;
`none` if any character is not a digit. -/
def digitsToNat? (l : List Char) : Option Nat :=
  l.foldl
    (fun acc c =>
      match acc, digitVal? c with
      | some a, some d => some (a * 10 + d)
      | _, _ => none)
    (some 0)

/-- Model of Python `float(value)` restricted to the plain decimal literals
that occur in the CSV's monetary columns: an optional sign, then digits with
at most one decimal point (at least one digit overall).  Anything else —
in particular the empty string — is a `ValueError`, modelled as `none`. -/
def pyFloat? (s : String) : Option ℚ :=
  let signed : ℚ × List Char :=
    match s.toList with
    | '-' :: rest => (-1, rest)
    | '+' :: rest => (1, rest)
    | l => (1, l)
  match splitOnChar '.' signed.2 with
  | [ip] =>
    if ip = [] then none
    else (digitsToNat? ip).map (fun n => signed.1 * n)
  | [ip, fp] =>
    if ip = [] ∧ fp = [] then none
    else
      match digitsToNat? ip, digitsToNat? fp with
      | some i, some f =>
        some (signed.1 * ((i : ℚ) + (f : ℚ) / 10 ^ fp.length))
      | _, _ => none
  | _ => none

/-- `get_float(fields, key)`: convert a string value to a float, handling
blank (and other unparseable) values by returning `0.0`.  A row is modelled
as a total map from column name to cell contents. -/
def get_float (fields : String → String) (key : String) : Money :=
  (pyFloat? (fields key)).getD 0

/-- `normalize_date(date)`: return date in `YYYY-MM-DD` form.  If the date
contains `/` it is assumed to be `MM/DD/YYYY` and is rebuilt as
`{0[2]}-{0[0]}-{0[1]}` from its `/`-separated fields; indexing a field that
does not exist raises `IndexError` in Python, modelled as `none`. -/
def normalize_date (date : String) : Option String :=
  if '/' ∈ date.toList then
    match splitOnChar '/' date.toList with
    | f0 :: f1 :: f2 :: _ => some (String.mk (f2 ++ '-' :: f0 ++ '-' :: f1))
    | _ => none
  else
    some date

/-- A single user order (class `Order`). -/
structure Order where
  order_date : String
  skus : List String
  item_price : Money
  shipping : Money
  opensky_credits : Money
  sales_tax : Money
  restocking_fee : Money
  cc_processing : Money
  opensky_commission : Money
  total_payment : Money
deriving DecidableEq

/-- `Order.__init__`. -/
def Order.init
    (order_date : String) (sku : String)
    (item_price shipping opensky_credits sales_tax restocking_fee
      cc_processing opensky_commission total_payment : Money) : Order :=
  { order_date := order_date
    skus := [sku]
    item_price := item_price
    shipping := shipping
    opensky_credits := opensky_credits
    sales_tax := sales_tax
    restocking_fee := restocking_fee
    cc_processing := cc_processing
    opensky_commission := opensky_commission
    total_payment := total_payment }

/-- `Order.update`: merge another line item row with the same Order ID. -/
def Order.update
    (o : Order) (sku : String)
    (item_price shipping opensky_credits sales_tax restocking_fee
      cc_processing opensky_commission total_payment : Money) : Order :=
  { o with
    skus := if sku ∈ o.skus then o.skus else o.skus ++ [sku]
    item_price := o.item_price + item_price
    shipping := o.shipping + shipping
    opensky_credits := o.opensky_credits + opensky_credits
    sales_tax := o.sales_tax + sales_tax
    restocking_fee := o.restocking_fee + restocking_fee
    cc_processing := o.cc_processing + cc_processing
    opensky_commission := o.opensky_commission + opensky_commission
    total_payment := o.total_payment + total_payment }

/-- The warning message emitted by `Order.validate` on a mismatch. -/
def validateWarning (order_id : String) (stored computed : Money) : String :=
  "For Order ID = " ++ order_id ++ ", Item price " ++ format2 stored
    ++ " != calculated price " ++ format2 computed

/-- `Order.validate`: emit a warning if the values do not add up, and correct
the stored item price.  The `app_ui.warning` side effect is modelled by the
returned list of warning messages. -/
def Order.validate (o : Order) (order_id : String) : Order × List String :=
  let item_price :=
    round2 (o.total_payment -
      (o.shipping + o.opensky_credits + o.sales_tax + o.restocking_fee +
        o.cc_processing + o.opensky_commission))
  if round2 o.item_price ≠ item_price then
    ({ o with item_price := item_price },
      [validateWarning order_id o.item_price item_price])
  else
    (o, [])

/-- A single payment from OpenSky (class `Payment`). -/
structure Payment where
  order_ids : List String
  total_payment : Money
deriving DecidableEq

/-- `Payment.__init__`. -/
def Payment.init (order_id : String) (total_payment : Money) : Payment :=
  { order_ids := [order_id], total_payment := total_payment }

/-- `Payment.update`: merge another line item row with the same payment
date. -/
def Payment.update (p : Payment) (order_id : String)
    (total_payment : Money) : Payment :=
  { order_ids :=
      if order_id ∈ p.order_ids then p.order_ids else p.order_ids ++ [order_id]
    total_payment := p.total_payment + total_payment }

/-- The values extracted from one CSV line-item row by the body of the
`read_opensky` loop (after column lookup, `get_float` conversion, credit sign
inversion and date normalization). -/
structure ParsedRow where
  order_id : String
  sku : String
  item_price : Money
  shipping : Money
  opensky_credits : Money
  sales_tax : Money
  restocking_fee : Money
  cc_processing : Money
  opensky_commission : Money
  total_payment : Money
  order_date : String
  payment_date : String
deriving DecidableEq

/-- The field-extraction prefix of the `read_opensky` loop body, on one CSV
row (a total map from column name to cell text).  The sign of credits is
inverted in the exported file, so `Credits` is negated; the two date columns
are normalized, which can fail (Python `IndexError`), hence `Option`. -/
def parseRow (fields : String → String) : Option ParsedRow :=
  match normalize_date (fields "Original order date"),
      normalize_date (fields "Payment date") with
  | some order_date, some payment_date =>
    some
      { order_id := fields "Order ID"
        sku := fields "SKU"
        item_price := get_float fields "Item price"
        shipping := get_float fields "Shipping price"
        opensky_credits := -get_float fields "Credits"
        sales_tax := get_float fields "Sales tax"
        restocking_fee := get_float fields "Restocking fee"
        cc_processing := get_float fields "Credit card processing"
        opensky_commission := get_float fields "OpenSky commission"
        total_payment := get_float fields "Total payment"
        order_date := order_date
        payment_date := payment_date }
  | _, _ => none

/-- Lookup in an insertion-ordered dict modelled as an association list
(Python `m[k]` guarded by `k in m`). -/
def dictGet? (m : List (String × β)) (k : String) : Option β :=
  match m with
  | [] => none
  | kv :: rest => if kv.1 = k then some kv.2 else dictGet? rest k

/-- The Python dict idiom `if k in m: m[k].update(...) else: m[k] = init`:
update the entry in place when the key is present, else append a fresh
entry at the end (dicts preserve insertion order). -/
def dictUpsert (m : List (String × β)) (k : String) (upd : β → β)
    (ini : β) : List (String × β) :=
  if (dictGet? m k).isSome then
    m.map (fun kv => if kv.1 = k then (kv.1, upd kv.2) else kv)
  else
    m ++ [(k, ini)]

/-- The "Update orders" step of the `read_opensky` loop for one row. -/
def updateOrders (orders : List (String × Order)) (r : ParsedRow) :
    List (String × Order) :=
  dictUpsert orders r.order_id
    (fun o =>
      o.update r.sku r.item_price r.shipping r.opensky_credits r.sales_tax
        r.restocking_fee r.cc_processing r.opensky_commission r.total_payment)
    (Order.init r.order_date r.sku r.item_price r.shipping r.opensky_credits
      r.sales_tax r.restocking_fee r.cc_processing r.opensky_commission
      r.total_payment)

/-- The "Update payments" step of the `read_opensky` loop for one row. -/
def updatePayments (payments : List (String × Payment)) (r : ParsedRow) :
    List (String × Payment) :=
  dictUpsert payments r.payment_date
    (fun p => p.update r.order_id r.total_payment)
    (Payment.init r.order_id r.total_payment)

/-- `read_opensky` after CSV decoding: fold the per-row updates over the
parsed rows, starting from empty dicts.  (File I/O, the missing-column fatal
path and the empty-file fatal path are outside this model.) -/
def read_opensky (rows : List ParsedRow) :
    List (String × Order) × List (String × Payment) :=
  rows.foldl
    (fun m r => (updateOrders m.1 r, updatePayments m.2 r))
    ([], [])

/-- Lexicographic comparison of character lists by code point, the order
Python uses to compare strings (executable, for use with `sorted`). -/
def leChars : List Char → List Char → Bool
  | [], _ => true
  | _ :: _, [] => false
  | a :: as, b :: bs =>
    if a.toNat < b.toNat then true
    else if b.toNat < a.toNat then false
    else leChars as bs

/-- Python's `<=` on strings: lexicographic by code point. -/
def strLeb (a b : String) : Bool := leChars a.data b.data

/-- `strLeb` as a relation, used as the sort order of Python `sorted`. -/
def strLe (a b : String) : Prop := strLeb a b = true

instance : DecidableRel strLe :=
  fun a b => inferInstanceAs (Decidable (strLeb a b = true))

/-- The loop body of the reader's order aggregation, applied to an existing
order and one more row. -/
def orderStep (o : Order) (r : ParsedRow) : Order :=
  o.update r.sku r.item_price r.shipping r.opensky_credits r.sales_tax
    r.restocking_fee r.cc_processing r.opensky_commission r.total_payment

/-- The Order built from a group of rows sharing an order id, as in
`read_opensky`: `Order.__init__` on the first row, then `Order.update` for
each subsequent row. -/
def mergeOrder (first : ParsedRow) (rest : List ParsedRow) : Order :=
  rest.foldl orderStep
    (Order.init first.order_date first.sku first.item_price first.shipping
      first.opensky_credits first.sales_tax first.restocking_fee
      first.cc_processing first.opensky_commission first.total_payment)

/-- The configured account names (`args.acct_*`). -/
structure Config where
  acct_cc_processing : String
  acct_credits : String
  acct_commission : String
  acct_deposit : String
  acct_opensky : String
  acct_shipping : String
  acct_restocking : String
  acct_sales : String
  acct_sales_tax : String

/-- `write_split`: write a single split to a .qif file, as the list of lines
it prints.  Nothing is printed when the amount is zero; the memo line is
printed only when the memo is truthy (present and non-empty). -/
def write_split (amount : Money) (account : String)
    (memo : Option String) : List String :=
  if amount ≠ 0 then
    ["S" ++ account]
      ++ (match memo with
          | some m => if m ≠ "" then ["E" ++ m] else []
          | none => [])
      ++ ["$" ++ format2 amount]
  else
    []

/-- `write_qif_header`: the header lines of the .qif file. -/
def write_qif_header (cfg : Config) : List String :=
  ["!Account", "N" ++ cfg.acct_opensky, "TBank", "^", "!Type:Bank"]

/-- `list_to_string`: a pretty version of the list — a comma-joined sorted
list below 5 elements, else a `from .. to ..` range summary. -/
def list_to_string (item_name : String) (values : List String) : String :=
  let values := values.insertionSort strLe
  if values.length < 5 then
    item_name ++ (if values.length > 1 then "s" else "") ++ "="
      ++ String.intercalate "," values
  else
    toString values.length ++ " " ++ item_name ++ "s from "
      ++ values.headD "" ++ " to " ++ values.getLastD ""

/-- The lines printed for a single order by the `write_qif_orders` loop
body: date, payee, asset account, total, then the splits in fixed reverse
order, then the record separator. -/
def orderLines (cfg : Config) (order_id : String) (o : Order) : List String :=
  ["D" ++ o.order_date,
   "POpenSky order " ++ order_id,
   "L" ++ cfg.acct_opensky,
   "T" ++ format2 o.total_payment]
    ++ write_split o.opensky_commission cfg.acct_commission none
    ++ write_split o.cc_processing cfg.acct_cc_processing none
    ++ write_split o.restocking_fee cfg.acct_restocking none
    ++ write_split o.sales_tax cfg.acct_sales_tax none
    ++ write_split o.opensky_credits cfg.acct_credits none
    ++ write_split o.shipping cfg.acct_shipping none
    ++ write_split o.item_price cfg.acct_sales
        (some (list_to_string "SKU" o.skus))
    ++ ["^"]

/-- The sorted iteration order of a Python dict: `sorted(m)` lists the keys
in ascending order. -/
def sortedKeys (m : List (String × β)) : List String :=
  (m.map Prod.fst).insertionSort strLe

/-- `write_qif_orders`: one transaction per order, iterating the order ids
in sorted order. -/
def write_qif_orders (cfg : Config) (orders : List (String × Order)) :
    List String :=
  (sortedKeys orders).foldr
    (fun order_id acc =>
      (match dictGet? orders order_id with
        | some o => orderLines cfg order_id o
        | none => []) ++ acc)
    []

/-- The lines printed for a single payment by the `write_qif_payments` loop
body: the total is negated on the `T` line, and the single split deposits
the positive total with the order-id memo. -/
def paymentLines (cfg : Config) (payment_date : String) (p : Payment) :
    List String :=
  ["D" ++ payment_date,
   "POpenSky payment",
   "L" ++ cfg.acct_opensky,
   "T" ++ format2 (-p.total_payment)]
    ++ write_split p.total_payment cfg.acct_deposit
        (some (list_to_string "Order ID" p.order_ids))
    ++ ["^"]

/-- `write_qif_payments`: one transaction per payment date, iterating the
dates in sorted order. -/
def write_qif_payments (cfg : Config) (payments : List (String × Payment)) :
    List String :=
  (sortedKeys payments).foldr
    (fun payment_date acc =>
      (match dictGet? payments payment_date with
        | some p => paymentLines cfg payment_date p
        | none => []) ++ acc)
    []

/-- `write_qif`: header, then all order transactions, then all payment
transactions. -/
def write_qif (cfg : Config) (orders : List (String × Order))
    (payments : List (String × Payment)) : List String :=
  write_qif_header cfg ++ write_qif_orders cfg orders
    ++ write_qif_payments cfg payments

/-- Extract the payee from a QIF line: the rest of the line when it starts
with the record-type letter `P`.  In the emitted file only payee lines start
with `P` (every other line starts with `D`, `L`, `T`, `S`, `E`, `$`, `^`,
`!` or `N`). -/
def payeeOf (line : String) : Option String :=
  match line.data with
  | c :: rest => if c = 'P' then some (String.mk rest) else none
  | [] => none

/-! ### Lemmas about `splitOnChar` -/

theorem splitOnChar_ne_nil (c : Char) (l : List Char) :
    splitOnChar c l ≠ [] := by
  cases l with
  | nil => simp [splitOnChar]
  | cons x xs =>
    simp only [splitOnChar]
    by_cases hx : x = c
    · simp [hx]
    · simp only [if_neg hx]
      cases splitOnChar c xs <;> simp

theorem splitOnChar_of_not_mem {c : Char} {l : List Char} (h : c ∉ l) :
    splitOnChar c l = [l] := by
  induction l with
  | nil => rfl
  | cons x xs ih =>
    rw [List.mem_cons, not_or] at h
    have hx : ¬ x = c := fun e => h.1 e.symm
    simp [splitOnChar, hx, ih h.2]

theorem splitOnChar_append {c : Char} {a : List Char} (b : List Char)
    (h : c ∉ a) : splitOnChar c (a ++ c :: b) = a :: splitOnChar c b := by
  induction a with
  | nil => simp [splitOnChar]
  | cons x xs ih =>
    rw [List.mem_cons, not_or] at h
    have hx : ¬ x = c := fun e => h.1 e.symm
    have hrec := ih h.2
    show splitOnChar c (x :: (xs ++ c :: b)) = (x :: xs) :: splitOnChar c b
    simp [splitOnChar, hx, hrec]

theorem not_mem_of_mem_splitOnChar {c : Char} :
    ∀ {l p : List Char}, p ∈ splitOnChar c l → c ∉ p := by
  intro l
  induction l with
  | nil =>
    intro p hp
    simp [splitOnChar] at hp
    simp [hp]
  | cons x xs ih =>
    intro p hp
    by_cases hx : x = c
    · simp only [splitOnChar, if_pos hx] at hp
      rcases List.mem_cons.1 hp with h | h
      · simp [h]
      · exact ih h
    · simp only [splitOnChar, if_neg hx] at hp
      cases heq : splitOnChar c xs with
      | nil => exact absurd heq (splitOnChar_ne_nil c xs)
      | cons f r =>
        rw [heq] at hp
        rcases List.mem_cons.1 hp with h | h
        · subst h
          intro hc
          rcases List.mem_cons.1 hc with h | h
          · exact hx h.symm
          · exact ih (heq ▸ List.mem_cons_self f r) h
        · exact ih (heq ▸ List.mem_cons_of_mem f h)

/-! ### C3: behaviour of `normalize_date` -/

theorem toList_append (s t : String) :
    (s ++ t).toList = s.toList ++ t.toList :=
  String.data_append s t

/-- If the date contains a slash and its split has at least three fields,
`normalize_date` rebuilds the date as `field2-field0-field1`. -/
theorem normalize_date_of_split {d : String} (hd : '/' ∈ d.toList)
    {f0 f1 f2 : List Char} {rest : List (List Char)}
    (heq : splitOnChar '/' d.toList = f0 :: f1 :: f2 :: rest) :
    normalize_date d = some (String.mk (f2 ++ '-' :: f0 ++ '-' :: f1)) := by
  unfold normalize_date
  rw [if_pos hd, heq]

/-- If the date contains no slash, `normalize_date` returns it unchanged. -/
theorem normalize_date_of_not_mem {d : String} (h : '/' ∉ d.toList) :
    normalize_date d = some d := by
  unfold normalize_date
  rw [if_neg h]

/-- **C3.** `normalize_date` applied to a date string containing no `/`
returns it unchanged; it is idempotent on its own outputs; and applied to
`MM/DD/YYYY` (three `/`-separated fields) it returns `YYYY-MM-DD`. -/
theorem C3_normalize_date_idempotent :
    (∀ d : String, '/' ∉ d.toList → normalize_date d = some d)
    ∧ (∀ d e : String, normalize_date d = some e → normalize_date e = some e)
    ∧ (∀ mm dd yyyy : String, '/' ∉ mm.toList → '/' ∉ dd.toList →
        '/' ∉ yyyy.toList →
        normalize_date (mm ++ "/" ++ dd ++ "/" ++ yyyy)
          = some (yyyy ++ "-" ++ mm ++ "-" ++ dd)) := by
  refine ⟨fun d h => normalize_date_of_not_mem h, ?_, ?_⟩
  · intro d e h
    by_cases hd : '/' ∈ d.toList
    · cases heq : splitOnChar '/' d.toList with
      | nil => exact absurd heq (splitOnChar_ne_nil _ _)
      | cons f0 rest0 =>
        cases rest0 with
        | nil =>
          unfold normalize_date at h
          rw [if_pos hd, heq] at h
          simp at h
        | cons f1 rest1 =>
          cases rest1 with
          | nil =>
            unfold normalize_date at h
            rw [if_pos hd, heq] at h
            simp at h
          | cons f2 rest2 =>
            rw [normalize_date_of_split hd heq] at h
            have he : e = String.mk (f2 ++ '-' :: f0 ++ '-' :: f1) :=
              (Option.some.inj h).symm
            have hm0 : f0 ∈ splitOnChar '/' d.toList := by rw [heq]; simp
            have hm1 : f1 ∈ splitOnChar '/' d.toList := by rw [heq]; simp
            have hm2 : f2 ∈ splitOnChar '/' d.toList := by rw [heq]; simp
            have h0 : '/' ∉ f0 := not_mem_of_mem_splitOnChar hm0
            have h1 : '/' ∉ f1 := not_mem_of_mem_splitOnChar hm1
            have h2 : '/' ∉ f2 := not_mem_of_mem_splitOnChar hm2
            apply normalize_date_of_not_mem
            rw [he]
            show '/' ∉ f2 ++ '-' :: f0 ++ '-' :: f1
            have hdash : ('/' : Char) ≠ '-' := by decide
            simp [List.mem_append, List.mem_cons, h0, h1, h2, hdash]
    · rw [normalize_date_of_not_mem hd] at h
      cases h
      exact normalize_date_of_not_mem hd
  · intro mm dd yyyy hm hd hy
    have hsplit : (mm ++ "/" ++ dd ++ "/" ++ yyyy).toList
        = mm.toList ++ '/' :: (dd.toList ++ '/' :: yyyy.toList) := by
      simp [toList_append]
    have hslash : '/' ∈ (mm ++ "/" ++ dd ++ "/" ++ yyyy).toList := by
      rw [hsplit]; simp
    have heq : splitOnChar '/' (mm ++ "/" ++ dd ++ "/" ++ yyyy).toList
        = mm.toList :: dd.toList :: yyyy.toList :: [] := by
      rw [hsplit, splitOnChar_append _ hm, splitOnChar_append _ hd,
        splitOnChar_of_not_mem hy]
    rw [normalize_date_of_split hslash heq]
    congr 1
    apply String.ext
    show yyyy.toList ++ '-' :: mm.toList ++ '-' :: dd.toList
      = (yyyy ++ "-" ++ mm ++ "-" ++ dd).data
    simp [String.data_append]

/-- Witness for C3 at a concrete input. -/
theorem C3_normalize_date_idempotent_witness :
    normalize_date "07/25/2015" = some "2015-07-25" := by
  have h := C3_normalize_date_idempotent.2.2 "07" "25" "2015"
    (by decide) (by decide) (by decide)
  exact h

/-- **C10.** `normalize_date` is total only when every input containing `/`
splits into at least three fields: on such inputs it rebuilds the date from
the first three fields, and on an input containing `/` with fewer fields
(such as `"1/2"`) the Python code raises `IndexError`, modelled by `none`. -/
theorem C10_normalize_date_partiality :
    (∀ d : String, '/' ∈ d.toList →
      ∀ f0 f1 f2 rest, splitOnChar '/' d.toList = f0 :: f1 :: f2 :: rest →
        normalize_date d = some (String.mk (f2 ++ '-' :: f0 ++ '-' :: f1)))
    ∧ (∀ d : String, '/' ∈ d.toList →
        (splitOnChar '/' d.toList).length < 3 → normalize_date d = none)
    ∧ normalize_date "1/2" = none := by
  refine ⟨?_, ?_, by decide⟩
  · intro d hd f0 f1 f2 rest heq
    exact normalize_date_of_split hd heq
  · intro d hd hlen
    unfold normalize_date
    rw [if_pos hd]
    cases heq : splitOnChar '/' d.toList with
    | nil => rfl
    | cons f0 rest0 =>
      cases rest0 with
      | nil => rfl
      | cons f1 rest1 =>
        cases rest1 with
        | nil => rfl
        | cons f2 rest2 =>
          rw [heq] at hlen
          simp at hlen
          omega

/-- Witness for C10 at a concrete input. -/
theorem C10_normalize_date_partiality_witness :
    normalize_date "03/04/2015" = some "2015-03-04" := by
  have h := C10_normalize_date_partiality.1 "03/04/2015" (by decide)
    "03".toList "04".toList "2015".toList [] (by decide)
  rw [h]
  decide

/-! ### C5: zero-amount splits -/

/-- **C5.** `write_split` emits no output lines when the amount is zero; for
a nonzero amount the split line with its account and its 2-decimal amount
line are in the output; and any output at all implies the amount was
nonzero. -/
theorem C5_write_split_zero_omitted :
    ∀ (amount : Money) (account : String) (memo : Option String),
      (amount = 0 → write_split amount account memo = [])
      ∧ (amount ≠ 0 →
          "S" ++ account ∈ write_split amount account memo
          ∧ "$" ++ format2 amount ∈ write_split amount account memo)
      ∧ (∀ l, l ∈ write_split amount account memo → amount ≠ 0) := by
  intro amount account memo
  refine ⟨?_, ?_, ?_⟩
  · intro h
    simp [write_split, h]
  · intro h
    constructor <;> simp [write_split, h]
  · intro l hl h
    subst h
    simp [write_split] at hl

/-- Witness for C5 at concrete inputs. -/
theorem C5_write_split_zero_omitted_witness :
    write_split (0 : Money) "Assets:Checking" none = []
    ∧ "SAssets:Checking" ∈ write_split (5 : Money) "Assets:Checking" none := by
  constructor
  · exact (C5_write_split_zero_omitted 0 "Assets:Checking" none).1 rfl
  · have h :=
      ((C5_write_split_zero_omitted 5 "Assets:Checking" none).2.1
        (by norm_num)).1
    have e : ("S" ++ "Assets:Checking" : String) = "SAssets:Checking" := by
      decide
    rw [e] at h
    exact h

/-! ### C2: `Order.validate` -/

/-- **C2.** `Order.validate` leaves the stored item price unchanged and
emits no warning when the stored item price rounds to the computed price
(total payment minus the six other fields, to 2 decimals); when they differ
it emits exactly one warning naming the order and both values and overwrites
the stored item price with the computed value. -/
theorem C2_validate_reconciles (o : Order) (order_id : String) :
    (round2 o.item_price
        = round2 (o.total_payment -
            (o.shipping + o.opensky_credits + o.sales_tax + o.restocking_fee +
              o.cc_processing + o.opensky_commission)) →
      o.validate order_id = (o, []))
    ∧ (round2 o.item_price
        ≠ round2 (o.total_payment -
            (o.shipping + o.opensky_credits + o.sales_tax + o.restocking_fee +
              o.cc_processing + o.opensky_commission)) →
      o.validate order_id =
        ({ o with
            item_price :=
              round2 (o.total_payment -
                (o.shipping + o.opensky_credits + o.sales_tax +
                  o.restocking_fee + o.cc_processing + o.opensky_commission)) },
          [validateWarning order_id o.item_price
            (round2 (o.total_payment -
              (o.shipping + o.opensky_credits + o.sales_tax +
                o.restocking_fee + o.cc_processing +
                o.opensky_commission)))])) := by
  constructor <;> intro h <;> simp [Order.validate, h]

/-- Witness for C2: one order that reconciles (unchanged, no warning) and
one that does not (corrected, one warning). -/
theorem C2_validate_reconciles_witness :
    (Order.init "2015-01-01" "A" 10 1 0 0 0 0 2 13).validate "1001"
      = (Order.init "2015-01-01" "A" 10 1 0 0 0 0 2 13, [])
    ∧ (Order.init "2015-01-01" "A" 10 1 0 0 0 0 2 14).validate "1002"
      = ({ Order.init "2015-01-01" "A" 10 1 0 0 0 0 2 14 with
            item_price := round2 (14 - (1 + 0 + 0 + 0 + 0 + 2)) },
          [validateWarning "1002" 10 (round2 (14 - (1 + 0 + 0 + 0 + 0 + 2)))]) := by
  constructor
  · exact (C2_validate_reconciles (Order.init "2015-01-01" "A" 10 1 0 0 0 0 2 13)
      "1001").1 (congrArg round2 (by norm_num [Order.init]))
  · exact (C2_validate_reconciles (Order.init "2015-01-01" "A" 10 1 0 0 0 0 2 14)
      "1002").2 (by norm_num [round2, Order.init])

/-! ### C1: merged orders sum each monetary field -/

theorem foldl_orderStep_item_price :
    ∀ (rest : List ParsedRow) (o : Order),
      (rest.foldl orderStep o).item_price
        = o.item_price + (rest.map ParsedRow.item_price).sum := by
  intro rest
  induction rest with
  | nil => intro o; simp
  | cons r rs ih =>
    intro o
    simp only [List.foldl_cons, List.map_cons, List.sum_cons, ih, orderStep,
      Order.update]
    ring

theorem foldl_orderStep_shipping :
    ∀ (rest : List ParsedRow) (o : Order),
      (rest.foldl orderStep o).shipping
        = o.shipping + (rest.map ParsedRow.shipping).sum := by
  intro rest
  induction rest with
  | nil => intro o; simp
  | cons r rs ih =>
    intro o
    simp only [List.foldl_cons, List.map_cons, List.sum_cons, ih, orderStep,
      Order.update]
    ring

theorem foldl_orderStep_opensky_credits :
    ∀ (rest : List ParsedRow) (o : Order),
      (rest.foldl orderStep o).opensky_credits
        = o.opensky_credits + (rest.map ParsedRow.opensky_credits).sum := by
  intro rest
  induction rest with
  | nil => intro o; simp
  | cons r rs ih =>
    intro o
    simp only [List.foldl_cons, List.map_cons, List.sum_cons, ih, orderStep,
      Order.update]
    ring

theorem foldl_orderStep_sales_tax :
    ∀ (rest : List ParsedRow) (o : Order),
      (rest.foldl orderStep o).sales_tax
        = o.sales_tax + (rest.map ParsedRow.sales_tax).sum := by
  intro rest
  induction rest with
  | nil => intro o; simp
  | cons r rs ih =>
    intro o
    simp only [List.foldl_cons, List.map_cons, List.sum_cons, ih, orderStep,
      Order.update]
    ring

theorem foldl_orderStep_restocking_fee :
    ∀ (rest : List ParsedRow) (o : Order),
      (rest.foldl orderStep o).restocking_fee
        = o.restocking_fee + (rest.map ParsedRow.restocking_fee).sum := by
  intro rest
  induction rest with
  | nil => intro o; simp
  | cons r rs ih =>
    intro o
    simp only [List.foldl_cons, List.map_cons, List.sum_cons, ih, orderStep,
      Order.update]
    ring

theorem foldl_orderStep_cc_processing :
    ∀ (rest : List ParsedRow) (o : Order),
      (rest.foldl orderStep o).cc_processing
        = o.cc_processing + (rest.map ParsedRow.cc_processing).sum := by
  intro rest
  induction rest with
  | nil => intro o; simp
  | cons r rs ih =>
    intro o
    simp only [List.foldl_cons, List.map_cons, List.sum_cons, ih, orderStep,
      Order.update]
    ring

theorem foldl_orderStep_opensky_commission :
    ∀ (rest : List ParsedRow) (o : Order),
      (rest.foldl orderStep o).opensky_commission
        = o.opensky_commission + (rest.map ParsedRow.opensky_commission).sum := by
  intro rest
  induction rest with
  | nil => intro o; simp
  | cons r rs ih =>
    intro o
    simp only [List.foldl_cons, List.map_cons, List.sum_cons, ih, orderStep,
      Order.update]
    ring

theorem foldl_orderStep_total_payment :
    ∀ (rest : List ParsedRow) (o : Order),
      (rest.foldl orderStep o).total_payment
        = o.total_payment + (rest.map ParsedRow.total_payment).sum := by
  intro rest
  induction rest with
  | nil => intro o; simp
  | cons r rs ih =>
    intro o
    simp only [List.foldl_cons, List.map_cons, List.sum_cons, ih, orderStep,
      Order.update]
    ring

/-- **C1.** The Order merged from rows sharing an order id (init from the
first row, `update` for each later row) carries, in each of the eight
monetary fields, the arithmetic sum of that field over all the rows. -/
theorem C1_merged_totals_are_sums (first : ParsedRow) (rest : List ParsedRow) :
    (mergeOrder first rest).item_price
        = ((first :: rest).map ParsedRow.item_price).sum
    ∧ (mergeOrder first rest).shipping
        = ((first :: rest).map ParsedRow.shipping).sum
    ∧ (mergeOrder first rest).opensky_credits
        = ((first :: rest).map ParsedRow.opensky_credits).sum
    ∧ (mergeOrder first rest).sales_tax
        = ((first :: rest).map ParsedRow.sales_tax).sum
    ∧ (mergeOrder first rest).restocking_fee
        = ((first :: rest).map ParsedRow.restocking_fee).sum
    ∧ (mergeOrder first rest).cc_processing
        = ((first :: rest).map ParsedRow.cc_processing).sum
    ∧ (mergeOrder first rest).opensky_commission
        = ((first :: rest).map ParsedRow.opensky_commission).sum
    ∧ (mergeOrder first rest).total_payment
        = ((first :: rest).map ParsedRow.total_payment).sum := by
  refine ⟨?_, ?_, ?_, ?_, ?_, ?_, ?_, ?_⟩ <;>
    simp [mergeOrder, Order.init, foldl_orderStep_item_price,
      foldl_orderStep_shipping, foldl_orderStep_opensky_credits,
      foldl_orderStep_sales_tax, foldl_orderStep_restocking_fee,
      foldl_orderStep_cc_processing, foldl_orderStep_opensky_commission,
      foldl_orderStep_total_payment]

/-! ### C7: credits are negated by the reader -/

/-- **C7.** The reader negates the parsed `Credits` field before
accumulation; unparseable (e.g. blank) monetary cells parse as `0`; a row
whose `Credits` cell is `"2.00"` contributes `-2` to the order's credits. -/
theorem C7_credits_negated :
    (∀ (fields : String → String) (r : ParsedRow), parseRow fields = some r →
        r.opensky_credits = -get_float fields "Credits")
    ∧ (∀ (fields : String → String) (key : String),
        pyFloat? (fields key) = none → get_float fields key = 0)
    ∧ (∀ (fields : String → String) (r : ParsedRow), parseRow fields = some r →
        fields "Credits" = "2.00" → r.opensky_credits = -2) := by
  have h1 : ∀ (fields : String → String) (r : ParsedRow),
      parseRow fields = some r →
      r.opensky_credits = -get_float fields "Credits" := by
    intro fields r h
    unfold parseRow at h
    cases hod : normalize_date (fields "Original order date") with
    | none => rw [hod] at h; simp at h
    | some od =>
      cases hpd : normalize_date (fields "Payment date") with
      | none => rw [hod, hpd] at h; simp at h
      | some pd =>
        rw [hod, hpd] at h
        have := Option.some.inj h
        subst this
        rfl
  refine ⟨h1, ?_, ?_⟩
  · intro fields key h
    rw [get_float, h]
    rfl
  · intro fields r h hc
    have hf : pyFloat? "2.00" = some 2 := by
      simp [pyFloat?, splitOnChar, digitsToNat?, digitVal?, String.toList]
    have : get_float fields "Credits" = 2 := by
      rw [get_float, hc, hf]
      rfl
    rw [h1 fields r h, this]

/-- Witness for C7: a concrete row whose `Credits` cell is `"2.00"`. -/
theorem C7_credits_negated_witness :
    ∃ r : ParsedRow, parseRow (fun _ => "2.00") = some r
      ∧ r.opensky_credits = -2 := by
  have hf : pyFloat? "2.00" = some 2 := by
    simp [pyFloat?, splitOnChar, digitsToNat?, digitVal?, String.toList]
  have hn : normalize_date "2.00" = some "2.00" :=
    normalize_date_of_not_mem (by decide)
  have hp : parseRow (fun _ => "2.00") =
      some ⟨"2.00", "2.00", 2, 2, -2, 2, 2, 2, 2, 2, "2.00", "2.00"⟩ := by
    simp [parseRow, hn, get_float, hf]
  exact ⟨_, hp, C7_credits_negated.2.2 _ _ hp rfl⟩

/-! ### The sort order used by Python `sorted` on strings -/

theorem leChars_refl : ∀ a : List Char, leChars a a = true := by
  intro a
  induction a with
  | nil => rfl
  | cons x xs ih => simp [leChars, ih]

theorem leChars_total : ∀ a b : List Char,
    leChars a b = true ∨ leChars b a = true := by
  intro a
  induction a with
  | nil => intro b; left; rfl
  | cons x xs ih =>
    intro b
    cases b with
    | nil => right; rfl
    | cons y ys =>
      by_cases h1 : x.toNat < y.toNat
      · left; simp [leChars, h1]
      · by_cases h2 : y.toNat < x.toNat
        · right; simp [leChars, h2]
        · rcases ih ys with h | h
          · left; simp [leChars, h1, h2, h]
          · right; simp [leChars, h1, h2, h]

theorem leChars_trans : ∀ a b c : List Char,
    leChars a b = true → leChars b c = true → leChars a c = true := by
  intro a
  induction a with
  | nil => intro b c _ _; rfl
  | cons x xs ih =>
    intro b c hab hbc
    cases b with
    | nil => simp [leChars] at hab
    | cons y ys =>
      cases c with
      | nil => simp [leChars] at hbc
      | cons z zs =>
        by_cases hxy : x.toNat < y.toNat
        · by_cases hyz : y.toNat < z.toNat
          · have h : x.toNat < z.toNat := by omega
            simp [leChars, h]
          · by_cases hzy : z.toNat < y.toNat
            · simp [leChars, hyz, hzy] at hbc
            · have h : x.toNat < z.toNat := by omega
              simp [leChars, h]
        · by_cases hyx : y.toNat < x.toNat
          · simp [leChars, hxy, hyx] at hab
          · simp only [leChars, if_neg hxy, if_neg hyx] at hab
            by_cases hyz : y.toNat < z.toNat
            · have h : x.toNat < z.toNat := by omega
              simp [leChars, h]
            · by_cases hzy : z.toNat < y.toNat
              · simp [leChars, hyz, hzy] at hbc
              · simp only [leChars, if_neg hyz, if_neg hzy] at hbc
                have h1 : ¬ x.toNat < z.toNat := by omega
                have h2 : ¬ z.toNat < x.toNat := by omega
                simp [leChars, h1, h2, ih ys zs hab hbc]

theorem leChars_antisymm : ∀ a b : List Char,
    leChars a b = true → leChars b a = true → a = b := by
  intro a
  induction a with
  | nil =>
    intro b _ hba
    cases b with
    | nil => rfl
    | cons y ys => simp [leChars] at hba
  | cons x xs ih =>
    intro b hab hba
    cases b with
    | nil => simp [leChars] at hab
    | cons y ys =>
      by_cases hxy : x.toNat < y.toNat
      · have h : ¬ y.toNat < x.toNat := by omega
        simp [leChars, h, hxy] at hba
      · by_cases hyx : y.toNat < x.toNat
        · simp [leChars, hxy, hyx] at hab
        · have hx : x = y := by
            apply Char.ext
            apply UInt32.ext
            show x.toNat = y.toNat
            omega
          simp only [leChars, if_neg hxy, if_neg hyx] at hab
          simp only [leChars, if_neg hyx, if_neg hxy] at hba
          rw [hx, ih ys hab hba]

theorem strLe_refl (a : String) : strLe a a := leChars_refl a.data

theorem strLe_total (a b : String) : strLe a b ∨ strLe b a :=
  leChars_total a.data b.data

theorem strLe_trans {a b c : String} (hab : strLe a b) (hbc : strLe b c) :
    strLe a c :=
  leChars_trans a.data b.data c.data hab hbc

theorem strLe_antisymm {a b : String} (hab : strLe a b) (hba : strLe b a) :
    a = b :=
  String.ext (leChars_antisymm a.data b.data hab hba)

/-! ### Sorted-list helpers -/

theorem headD_mem {α : Type} {l : List α} (h : l ≠ []) (d : α) :
    l.headD d ∈ l := by
  cases l with
  | nil => exact absurd rfl h
  | cons a t => simp

theorem getLastD_mem {α : Type} : ∀ {l : List α}, l ≠ [] → ∀ d : α,
    l.getLastD d ∈ l := by
  intro l
  induction l with
  | nil => intro h; exact absurd rfl h
  | cons a t ih =>
    intro _ d
    rw [List.getLastD_cons]
    cases t with
    | nil => simp [List.getLastD]
    | cons b t' => exact List.mem_cons_of_mem a (ih (by simp) a)

theorem sorted_headD_le {l : List String} (hs : l.Sorted strLe) {x : String}
    (hx : x ∈ l) (d : String) : strLe (l.headD d) x := by
  cases l with
  | nil => simp at hx
  | cons a t =>
    rcases List.mem_cons.1 hx with h | h
    · rw [h]; exact strLe_refl a
    · exact List.rel_of_sorted_cons hs x h

theorem sorted_le_getLastD : ∀ {l : List String}, l.Sorted strLe →
    ∀ {x : String}, x ∈ l → ∀ d : String, strLe x (l.getLastD d) := by
  intro l
  induction l with
  | nil => intro _ x hx; simp at hx
  | cons a t ih =>
    intro hs x hx d
    rw [List.getLastD_cons]
    cases t with
    | nil =>
      rcases List.mem_cons.1 hx with h | h
      · rw [h]; exact strLe_refl a
      · simp at h
    | cons b t' =>
      rcases List.mem_cons.1 hx with h | h
      · have hmem : (b :: t').getLastD a ∈ b :: t' := getLastD_mem (by simp) a
        exact h ▸ List.rel_of_sorted_cons hs _ hmem
      · exact ih hs.of_cons h a

/-! ### C6: `list_to_string` -/

/-- **C6 counterexample.** A list with fewer than 5 *distinct* entries but 5
elements takes the range-summary branch, not the comma-join branch the claim
requires. -/
theorem C6_list_to_string_counterexample :
    (["a", "a", "a", "a", "a"] : List String).dedup.length < 5
    ∧ list_to_string "x" ["a", "a", "a", "a", "a"] = "5 xs from a to a"
    ∧ list_to_string "x" ["a", "a", "a", "a", "a"] ≠ "xs=a,a,a,a,a" := by
  refine ⟨by decide, by decide, by decide⟩

/-- **C6 (amended).** For every item name and non-empty list of values,
`list_to_string` returns the item name (pluralized with `s` exactly when
there is more than one value), `=`, and the comma-joined sorted values when
the list has fewer than 5 *elements*, and returns the summary
`<count> <name>s from <smallest> to <largest>` (smallest and largest in the
Python string order) when it has 5 or more elements. -/
theorem C6_list_to_string_amended :
    ∀ (item_name : String) (values : List String), values ≠ [] →
      (values.length < 5 →
        ∃ vs, vs.Perm values ∧ vs.Sorted strLe ∧
          list_to_string item_name values =
            item_name ++ (if 1 < values.length then "s" else "") ++ "="
              ++ String.intercalate "," vs)
      ∧ (5 ≤ values.length →
        ∃ m M, m ∈ values ∧ M ∈ values
          ∧ (∀ x ∈ values, strLe m x ∧ strLe x M)
          ∧ list_to_string item_name values =
              toString values.length ++ " " ++ item_name ++ "s from " ++ m
                ++ " to " ++ M) := by
  intro item_name values hne
  haveI : IsTotal String strLe := ⟨strLe_total⟩
  haveI : IsTrans String strLe := ⟨fun _ _ _ => strLe_trans⟩
  have hperm := List.perm_insertionSort strLe values
  have hsort := List.sorted_insertionSort strLe values
  have hlen := List.length_insertionSort strLe values
  constructor
  · intro h5
    refine ⟨values.insertionSort strLe, hperm, hsort, ?_⟩
    unfold list_to_string
    simp only [List.length_insertionSort]
    rw [if_pos h5]
  · intro h5
    have hlt : ¬ (values.insertionSort strLe).length < 5 := by omega
    have hvsne : values.insertionSort strLe ≠ [] := by
      intro h
      rw [h] at hlen
      simp at hlen
      omega
    refine ⟨(values.insertionSort strLe).headD "",
      (values.insertionSort strLe).getLastD "", ?_, ?_, ?_, ?_⟩
    · exact hperm.mem_iff.mp (headD_mem hvsne "")
    · exact hperm.mem_iff.mp (getLastD_mem hvsne "")
    · intro x hx
      have hx' : x ∈ values.insertionSort strLe := hperm.mem_iff.mpr hx
      exact ⟨sorted_headD_le hsort hx' "", sorted_le_getLastD hsort hx' ""⟩
    · unfold list_to_string
      rw [if_neg hlt, hlen]

/-- Witness for the amended C6 at a concrete input. -/
theorem C6_list_to_string_amended_witness :
    ∃ vs, vs.Perm ["B", "A"] ∧ vs.Sorted strLe ∧
      list_to_string "SKU" ["B", "A"] =
        "SKU" ++ (if 1 < (["B", "A"] : List String).length then "s" else "")
          ++ "=" ++ String.intercalate "," vs :=
  (C6_list_to_string_amended "SKU" ["B", "A"] (by decide)).1 (by decide)

/-! ### Lemmas about the dict model -/

theorem dictGet?_isSome_iff {β : Type} (m : List (String × β)) (k : String) :
    (dictGet? m k).isSome = true ↔ k ∈ m.map Prod.fst := by
  induction m with
  | nil => simp [dictGet?]
  | cons kv rest ih =>
    by_cases h : kv.1 = k
    · simp [dictGet?, h]
    · have h' : ¬ k = kv.1 := fun e => h e.symm
      simp [dictGet?, h, h', ih]

theorem dictGet?_map_update {β : Type} (m : List (String × β)) (k k' : String)
    (u : β → β) :
    dictGet? (m.map (fun kv => if kv.1 = k then (kv.1, u kv.2) else kv)) k'
      = if k' = k then (dictGet? m k').map u else dictGet? m k' := by
  induction m with
  | nil => simp [dictGet?]
  | cons kv rest ih =>
    by_cases hkv : kv.1 = k
    · by_cases hk' : kv.1 = k'
      · have hkk : k' = k := by rw [← hk', hkv]
        simp [dictGet?, hkv, hk', hkk]
      · have hkk : ¬ k' = k := by
          intro e
          exact hk' (by rw [hkv, e])
        have hkk2 : ¬ k = k' := fun e => hkk e.symm
        simp [dictGet?, hkv, hk', ih, hkk, hkk2]
    · by_cases hk' : kv.1 = k'
      · have hkk : ¬ k' = k := by
          intro e
          exact hkv (by rw [hk', e])
        simp [dictGet?, hkv, hk', hkk]
      · simp [dictGet?, hkv, hk', ih]

theorem dictGet?_append {β : Type} (m₁ m₂ : List (String × β)) (k : String) :
    dictGet? (m₁ ++ m₂) k
      = match dictGet? m₁ k with
        | some v => some v
        | none => dictGet? m₂ k := by
  induction m₁ with
  | nil => simp [dictGet?]
  | cons kv rest ih =>
    by_cases h : kv.1 = k
    · simp [dictGet?, h]
    · simp [dictGet?, h, ih]

theorem keys_dictUpsert {β : Type} (m : List (String × β)) (k : String)
    (u : β → β) (i : β) :
    (dictUpsert m k u i).map Prod.fst
      = if k ∈ m.map Prod.fst then m.map Prod.fst
        else m.map Prod.fst ++ [k] := by
  unfold dictUpsert
  by_cases h : k ∈ m.map Prod.fst
  · rw [if_pos ((dictGet?_isSome_iff m k).mpr h), if_pos h, List.map_map]
    apply List.map_congr_left
    intro kv _
    by_cases hkv : kv.1 = k <;> simp [hkv]
  · rw [if_neg (fun hs => h ((dictGet?_isSome_iff m k).mp hs)), if_neg h]
    simp

theorem dictGet?_dictUpsert {β : Type} (m : List (String × β)) (k k' : String)
    (u : β → β) (i : β) :
    dictGet? (dictUpsert m k u i) k'
      = if k' = k then
          match dictGet? m k with
          | some v => some (u v)
          | none => some i
        else dictGet? m k' := by
  unfold dictUpsert
  cases hm : dictGet? m k with
  | some v =>
    rw [if_pos (show (some v).isSome = true from rfl), dictGet?_map_update]
    by_cases hk : k' = k
    · subst hk
      rw [if_pos rfl, if_pos rfl, hm]
      rfl
    · rw [if_neg hk, if_neg hk]
  | none =>
    rw [if_neg (show ¬ (none : Option β).isSome = true by simp), dictGet?_append]
    by_cases hk : k' = k
    · subst hk
      rw [hm]
      simp [dictGet?]
    · cases hmk' : dictGet? m k' with
      | some w => simp [hmk', hk]
      | none =>
        have h' : ¬ k = k' := fun e => hk e.symm
        simp [hmk', hk, dictGet?, h']

/-- The first projection of the `read_opensky` fold is the fold of the
order updates alone. -/
theorem read_opensky_fst (rows : List ParsedRow) :
    (read_opensky rows).1 = rows.foldl updateOrders [] := by
  suffices h : ∀ (acc : List (String × Order) × List (String × Payment)),
      (rows.foldl (fun m r => (updateOrders m.1 r, updatePayments m.2 r))
        acc).1 = rows.foldl updateOrders acc.1 from h ([], [])
  induction rows with
  | nil => intro acc; rfl
  | cons r rs ih => intro acc; exact ih (updateOrders acc.1 r, updatePayments acc.2 r)

/-- The second projection of the `read_opensky` fold is the fold of the
payment updates alone. -/
theorem read_opensky_snd (rows : List ParsedRow) :
    (read_opensky rows).2 = rows.foldl updatePayments [] := by
  suffices h : ∀ (acc : List (String × Order) × List (String × Payment)),
      (rows.foldl (fun m r => (updateOrders m.1 r, updatePayments m.2 r))
        acc).2 = rows.foldl updatePayments acc.2 from h ([], [])
  induction rows with
  | nil => intro acc; rfl
  | cons r rs ih => intro acc; exact ih (updateOrders acc.1 r, updatePayments acc.2 r)

/-- Membership in the key set of a fold of dict upserts: exactly the keys
already present plus the keys of the processed rows. -/
theorem mem_keys_foldl {ρ β : Type} (key : ρ → String) (upd : ρ → β → β)
    (ini : ρ → β) :
    ∀ (rows : List ρ) (acc : List (String × β)) (k : String),
      (k ∈ ((rows.foldl
          (fun m r => dictUpsert m (key r) (upd r) (ini r)) acc).map Prod.fst))
        ↔ k ∈ acc.map Prod.fst ∨ k ∈ rows.map key := by
  intro rows
  induction rows with
  | nil => intro acc k; simp
  | cons r rs ih =>
    intro acc k
    rw [List.foldl_cons, ih, keys_dictUpsert]
    by_cases h : key r ∈ acc.map Prod.fst
    · rw [if_pos h]
      constructor
      · rintro (h1 | h1)
        · exact Or.inl h1
        · exact Or.inr (List.mem_cons_of_mem _ h1)
      · rintro (h1 | h1)
        · exact Or.inl h1
        · rcases List.mem_cons.1 h1 with h2 | h2
          · exact Or.inl (h2 ▸ h)
          · exact Or.inr h2
    · rw [if_neg h]
      simp only [List.mem_append, List.mem_cons, List.map_cons,
        List.mem_singleton]
      tauto

/-- A fold of dict upserts keeps the key list duplicate-free. -/
theorem keys_foldl_nodup {ρ β : Type} (key : ρ → String) (upd : ρ → β → β)
    (ini : ρ → β) :
    ∀ (rows : List ρ) (acc : List (String × β)),
      (acc.map Prod.fst).Nodup →
      ((rows.foldl
          (fun m r => dictUpsert m (key r) (upd r) (ini r)) acc).map
        Prod.fst).Nodup := by
  intro rows
  induction rows with
  | nil => intro acc h; exact h
  | cons r rs ih =>
    intro acc h
    rw [List.foldl_cons]
    apply ih
    rw [keys_dictUpsert]
    by_cases hp : key r ∈ acc.map Prod.fst
    · rw [if_pos hp]; exact h
    · rw [if_neg hp]
      simp [List.nodup_append, h, hp]

/-! ### C8: the merged order keeps the first row's order date -/

/-- Where an order in the fold of `updateOrders` got its `order_date`:
either it was already in the accumulator with that date, or it was created
by the first row of the processed batch bearing its key. -/
theorem order_date_foldl :
    ∀ (rows : List ParsedRow) (acc : List (String × Order)) (k : String)
      (o : Order),
      dictGet? (rows.foldl updateOrders acc) k = some o →
      (∃ o₀, dictGet? acc k = some o₀ ∧ o.order_date = o₀.order_date)
      ∨ (dictGet? acc k = none
          ∧ ∃ r, rows.find? (fun r' => r'.order_id == k) = some r
              ∧ o.order_date = r.order_date) := by
  intro rows
  induction rows with
  | nil =>
    intro acc k o h
    exact Or.inl ⟨o, h, rfl⟩
  | cons r rs ih =>
    intro acc k o h
    rw [List.foldl_cons] at h
    rcases ih _ k o h with ⟨o₀, ho₀, hdate⟩ | ⟨hnone, r', hr', hdate⟩
    · unfold updateOrders at ho₀
      rw [dictGet?_dictUpsert] at ho₀
      by_cases hk : k = r.order_id
      · rw [if_pos hk] at ho₀
        subst hk
        cases hacc : dictGet? acc r.order_id with
        | some v =>
          rw [hacc] at ho₀
          left
          refine ⟨v, rfl, ?_⟩
          rw [hdate, ← Option.some.inj ho₀]
          rfl
        | none =>
          rw [hacc] at ho₀
          right
          refine ⟨rfl, r, ?_, ?_⟩
          · exact List.find?_cons_of_pos rs (by simp)
          · rw [hdate, ← Option.some.inj ho₀]
            rfl
      · rw [if_neg hk] at ho₀
        exact Or.inl ⟨o₀, ho₀, hdate⟩
    · unfold updateOrders at hnone
      rw [dictGet?_dictUpsert] at hnone
      by_cases hk : k = r.order_id
      · rw [if_pos hk] at hnone
        cases hacc : dictGet? acc r.order_id <;> rw [hacc] at hnone <;>
          simp at hnone
      · rw [if_neg hk] at hnone
        right
        refine ⟨hnone, r', ?_, hdate⟩
        rw [← hr']
        have hne : ¬ (r.order_id == k) = true := by
          simp only [beq_iff_eq]
          exact fun e => hk e.symm
        exact List.find?_cons_of_neg rs hne

/-- **C8.** `Order.update` never modifies the order date (it only touches
the SKU list and the eight monetary accumulators), the reader stores the
normalized `Original order date`, and the merged Order's date is the one of
the first row encountered with that order identifier. -/
theorem C8_order_date_from_first_row :
    (∀ (o : Order) (sku : String)
        (ip sh cr st rf cc co tp : Money),
        (o.update sku ip sh cr st rf cc co tp).order_date = o.order_date)
    ∧ (∀ (fields : String → String) (r : ParsedRow), parseRow fields = some r →
        normalize_date (fields "Original order date") = some r.order_date)
    ∧ (∀ (rows : List ParsedRow) (k : String) (o : Order),
        dictGet? (read_opensky rows).1 k = some o →
        ∃ r, rows.find? (fun r' => r'.order_id == k) = some r
          ∧ o.order_date = r.order_date) := by
  refine ⟨fun _ _ _ _ _ _ _ _ _ _ => rfl, ?_, ?_⟩
  · intro fields r h
    unfold parseRow at h
    cases hod : normalize_date (fields "Original order date") with
    | none => rw [hod] at h; simp at h
    | some od =>
      cases hpd : normalize_date (fields "Payment date") with
      | none => rw [hod, hpd] at h; simp at h
      | some pd =>
        rw [hod, hpd] at h
        have := Option.some.inj h
        subst this
        rfl
  · intro rows k o h
    rw [read_opensky_fst] at h
    rcases order_date_foldl rows [] k o h with ⟨o₀, ho₀, _⟩ | ⟨_, r, hr, hdate⟩
    · exact absurd ho₀ (by simp [dictGet?])
    · exact ⟨r, hr, hdate⟩

/-- Witness for C8: two rows with the same order id and different order
dates; the merged order keeps the first row's date. -/
theorem C8_order_date_from_first_row_witness :
    ∃ r, ([⟨"1001", "A", 1, 0, 0, 0, 0, 0, 0, 1, "2015-01-01", "2015-02-01"⟩,
            ⟨"1001", "B", 2, 0, 0, 0, 0, 0, 0, 2, "2015-09-09", "2015-02-01"⟩]
          : List ParsedRow).find? (fun r' => r'.order_id == "1001") = some r
      ∧ ((Order.init "2015-01-01" "A" 1 0 0 0 0 0 0 1).update
            "B" 2 0 0 0 0 0 0 2).order_date = r.order_date := by
  apply C8_order_date_from_first_row.2.2
    [⟨"1001", "A", 1, 0, 0, 0, 0, 0, 0, 1, "2015-01-01", "2015-02-01"⟩,
     ⟨"1001", "B", 2, 0, 0, 0, 0, 0, 0, 2, "2015-09-09", "2015-02-01"⟩]
    "1001"
  show dictGet? (read_opensky _).1 "1001" = _
  rw [read_opensky_fst]
  simp [updateOrders, dictUpsert, dictGet?]

/-! ### C9: payment transactions -/

theorem append_ne_empty_right (a b : String) (hb : b ≠ "") : a ++ b ≠ "" := by
  intro h
  apply hb
  rw [String.ext_iff, String.data_append] at h
  rcases List.append_eq_nil.mp h with ⟨_, h2⟩
  exact String.ext h2

theorem append_ne_empty_left (a b : String) (ha : a ≠ "") : a ++ b ≠ "" := by
  intro h
  apply ha
  rw [String.ext_iff, String.data_append] at h
  rcases List.append_eq_nil.mp h with ⟨h1, _⟩
  exact String.ext h1

/-- `list_to_string` never returns the empty string (both branches contain a
literal separator), so the memo is always truthy for `write_split`. -/
theorem list_to_string_ne_empty (item_name : String) (values : List String) :
    list_to_string item_name values ≠ "" := by
  simp only [list_to_string]
  split
  · exact append_ne_empty_left _ _ (append_ne_empty_right _ _ (by decide))
  · exact append_ne_empty_left _ _ (append_ne_empty_right _ _ (by decide))

/-- **C9.** Each payment transaction carries the negated summed total on its
`T` line; when the total is nonzero the single split deposits the positive
total with the order-identifier memo; when the total is zero the split is
omitted entirely but the `T` line (of the negated zero total) is still
emitted. -/
theorem C9_payment_lines (cfg : Config) (payment_date : String) (p : Payment) :
    ("T" ++ format2 (-p.total_payment)) ∈ paymentLines cfg payment_date p
    ∧ (p.total_payment = 0 → paymentLines cfg payment_date p =
        ["D" ++ payment_date, "POpenSky payment", "L" ++ cfg.acct_opensky,
         "T" ++ format2 (-p.total_payment), "^"])
    ∧ (p.total_payment ≠ 0 → paymentLines cfg payment_date p =
        ["D" ++ payment_date, "POpenSky payment", "L" ++ cfg.acct_opensky,
         "T" ++ format2 (-p.total_payment),
         "S" ++ cfg.acct_deposit,
         "E" ++ list_to_string "Order ID" p.order_ids,
         "$" ++ format2 p.total_payment, "^"]) := by
  refine ⟨?_, ?_, ?_⟩
  · simp [paymentLines]
  · intro h
    simp [paymentLines, write_split, h]
  · intro h
    simp [paymentLines, write_split, h, list_to_string_ne_empty]

/-- Witness for C9: a zero-total payment omits the split, a nonzero-total
payment carries it. -/
theorem C9_payment_lines_witness :
    paymentLines ⟨"cc", "cr", "co", "dep", "os", "sh", "re", "sa", "st"⟩
        "2015-02-01" ⟨["1001"], 0⟩ =
      ["D" ++ "2015-02-01", "POpenSky payment", "L" ++ "os",
       "T" ++ format2 (-(0 : ℚ)), "^"]
    ∧ paymentLines ⟨"cc", "cr", "co", "dep", "os", "sh", "re", "sa", "st"⟩
        "2015-02-01" ⟨["1001"], 5⟩ =
      ["D" ++ "2015-02-01", "POpenSky payment", "L" ++ "os",
       "T" ++ format2 (-(5 : ℚ)),
       "S" ++ "dep", "E" ++ list_to_string "Order ID" ["1001"],
       "$" ++ format2 (5 : ℚ), "^"] := by
  constructor
  · exact (C9_payment_lines ⟨"cc", "cr", "co", "dep", "os", "sh", "re", "sa",
      "st"⟩ "2015-02-01" ⟨["1001"], 0⟩).2.1 rfl
  · exact (C9_payment_lines ⟨"cc", "cr", "co", "dep", "os", "sh", "re", "sa",
      "st"⟩ "2015-02-01" ⟨["1001"], 5⟩).2.2 (by norm_num)

/-! ### C4: output ordering -/

theorem payeeOf_head_ne (c : Char) (cs : List Char) (p s : String)
    (hp : p.data = c :: cs) (hc : ¬ c = 'P') : payeeOf (p ++ s) = none := by
  simp [payeeOf, String.data_append, hp, hc]

theorem payeeOf_P_head (cs : List Char) (p s : String)
    (hp : p.data = 'P' :: cs) :
    payeeOf (p ++ s) = some (String.mk (cs ++ s.data)) := by
  simp [payeeOf, String.data_append, hp]

theorem payeeOf_D (s : String) : payeeOf ("D" ++ s) = none :=
  payeeOf_head_ne 'D' [] "D" s rfl (by decide)

theorem payeeOf_L (s : String) : payeeOf ("L" ++ s) = none :=
  payeeOf_head_ne 'L' [] "L" s rfl (by decide)

theorem payeeOf_T (s : String) : payeeOf ("T" ++ s) = none :=
  payeeOf_head_ne 'T' [] "T" s rfl (by decide)

theorem payeeOf_S (s : String) : payeeOf ("S" ++ s) = none :=
  payeeOf_head_ne 'S' [] "S" s rfl (by decide)

theorem payeeOf_E (s : String) : payeeOf ("E" ++ s) = none :=
  payeeOf_head_ne 'E' [] "E" s rfl (by decide)

theorem payeeOf_N (s : String) : payeeOf ("N" ++ s) = none :=
  payeeOf_head_ne 'N' [] "N" s rfl (by decide)

theorem payeeOf_dollar (s : String) : payeeOf ("$" ++ s) = none :=
  payeeOf_head_ne '$' [] "$" s rfl (by decide)

theorem payeeOf_hat : payeeOf "^" = none := by decide

theorem payeeOf_bang_account : payeeOf "!Account" = none := by decide

theorem payeeOf_tbank : payeeOf "TBank" = none := by decide

theorem payeeOf_bang_type : payeeOf "!Type:Bank" = none := by decide

theorem payeeOf_payment : payeeOf "POpenSky payment" = some "OpenSky payment" := by
  decide

theorem payeeOf_order (k : String) :
    payeeOf ("POpenSky order " ++ k) = some ("OpenSky order " ++ k) := by
  rw [payeeOf_P_head "OpenSky order ".data "POpenSky order " k rfl]
  rfl

/-- `write_split` emits no payee lines. -/
theorem payees_write_split (a : Money) (acct : String) (memo : Option String) :
    (write_split a acct memo).filterMap payeeOf = [] := by
  unfold write_split
  split
  · cases memo with
    | none => simp [payeeOf_S, payeeOf_dollar]
    | some m =>
      by_cases hm : m ≠ "" <;>
        simp [hm, payeeOf_S, payeeOf_E, payeeOf_dollar]
  · rfl

/-- An order's block contributes exactly one payee line, naming its id. -/
theorem payees_orderLines (cfg : Config) (k : String) (o : Order) :
    (orderLines cfg k o).filterMap payeeOf = ["OpenSky order " ++ k] := by
  simp [orderLines, List.filterMap_append, payees_write_split, payeeOf_D,
    payeeOf_L, payeeOf_T, payeeOf_order, payeeOf_hat]

/-- A payment's block contributes exactly one payee line. -/
theorem payees_paymentLines (cfg : Config) (d : String) (p : Payment) :
    (paymentLines cfg d p).filterMap payeeOf = ["OpenSky payment"] := by
  simp [paymentLines, List.filterMap_append, payees_write_split, payeeOf_D,
    payeeOf_L, payeeOf_T, payeeOf_payment, payeeOf_hat]

/-- The header contributes no payee lines. -/
theorem payees_header (cfg : Config) :
    (write_qif_header cfg).filterMap payeeOf = [] := by
  simp [write_qif_header, payeeOf_bang_account, payeeOf_N, payeeOf_tbank,
    payeeOf_hat, payeeOf_bang_type]

theorem payees_orders_foldr (cfg : Config) (orders : List (String × Order)) :
    ∀ ks : List String, (∀ k ∈ ks, k ∈ orders.map Prod.fst) →
      ((ks.foldr (fun order_id acc =>
          (match dictGet? orders order_id with
            | some o => orderLines cfg order_id o
            | none => []) ++ acc) []).filterMap payeeOf)
        = ks.map (fun k => "OpenSky order " ++ k) := by
  intro ks
  induction ks with
  | nil => intro _; rfl
  | cons k ks ih =>
    intro h
    rw [List.foldr_cons]
    obtain ⟨o, ho⟩ : ∃ o, dictGet? orders k = some o := by
      have hs := (dictGet?_isSome_iff orders k).mpr (h k (List.mem_cons_self k ks))
      cases hd : dictGet? orders k with
      | none => rw [hd] at hs; simp at hs
      | some o => exact ⟨o, rfl⟩
    simp only [ho, List.filterMap_append, payees_orderLines, List.map_cons,
      List.singleton_append]
    rw [ih (fun k' hk' => h k' (List.mem_cons_of_mem k hk'))]

theorem payees_payments_foldr (cfg : Config)
    (payments : List (String × Payment)) :
    ∀ ks : List String, (∀ k ∈ ks, k ∈ payments.map Prod.fst) →
      ((ks.foldr (fun payment_date acc =>
          (match dictGet? payments payment_date with
            | some p => paymentLines cfg payment_date p
            | none => []) ++ acc) []).filterMap payeeOf)
        = ks.map (fun _ => "OpenSky payment") := by
  intro ks
  induction ks with
  | nil => intro _; rfl
  | cons k ks ih =>
    intro h
    rw [List.foldr_cons]
    obtain ⟨p, hp⟩ : ∃ p, dictGet? payments k = some p := by
      have hs := (dictGet?_isSome_iff payments k).mpr (h k (List.mem_cons_self k ks))
      cases hd : dictGet? payments k with
      | none => rw [hd] at hs; simp at hs
      | some p => exact ⟨p, rfl⟩
    simp only [hp, List.filterMap_append, payees_paymentLines, List.map_cons,
      List.singleton_append]
    rw [ih (fun k' hk' => h k' (List.mem_cons_of_mem k hk'))]

/-- The payee lines of the whole QIF file: the sorted order ids first, then
one payment payee per sorted payment date. -/
theorem payees_write_qif (cfg : Config) (orders : List (String × Order))
    (payments : List (String × Payment)) :
    (write_qif cfg orders payments).filterMap payeeOf
      = (sortedKeys orders).map (fun k => "OpenSky order " ++ k)
        ++ (sortedKeys payments).map (fun _ => "OpenSky payment") := by
  unfold write_qif
  rw [List.filterMap_append, List.filterMap_append, payees_header]
  rw [show (write_qif_orders cfg orders).filterMap payeeOf
      = (sortedKeys orders).map (fun k => "OpenSky order " ++ k) from
    payees_orders_foldr cfg orders (sortedKeys orders)
      (fun k hk => (List.perm_insertionSort strLe (orders.map Prod.fst)).mem_iff.mp hk)]
  rw [show (write_qif_payments cfg payments).filterMap payeeOf
      = (sortedKeys payments).map (fun _ => "OpenSky payment") from
    payees_payments_foldr cfg payments (sortedKeys payments)
      (fun k hk => (List.perm_insertionSort strLe (payments.map Prod.fst)).mem_iff.mp hk)]
  simp

theorem orders_keys_nodup (rows : List ParsedRow) :
    ((read_opensky rows).1.map Prod.fst).Nodup := by
  rw [read_opensky_fst]
  exact keys_foldl_nodup (fun r => r.order_id)
    (fun r o => o.update r.sku r.item_price r.shipping r.opensky_credits
      r.sales_tax r.restocking_fee r.cc_processing r.opensky_commission
      r.total_payment)
    (fun r => Order.init r.order_date r.sku r.item_price r.shipping
      r.opensky_credits r.sales_tax r.restocking_fee r.cc_processing
      r.opensky_commission r.total_payment)
    rows [] (by simp)

theorem payments_keys_nodup (rows : List ParsedRow) :
    ((read_opensky rows).2.map Prod.fst).Nodup := by
  rw [read_opensky_snd]
  exact keys_foldl_nodup (fun r => r.payment_date)
    (fun r p => p.update r.order_id r.total_payment)
    (fun r => Payment.init r.order_id r.total_payment)
    rows [] (by simp)

theorem orders_keys_mem (rows : List ParsedRow) (k : String) :
    k ∈ (read_opensky rows).1.map Prod.fst
      ↔ k ∈ rows.map (fun r => r.order_id) := by
  rw [read_opensky_fst]
  have h := mem_keys_foldl (fun r => r.order_id)
    (fun r o => o.update r.sku r.item_price r.shipping r.opensky_credits
      r.sales_tax r.restocking_fee r.cc_processing r.opensky_commission
      r.total_payment)
    (fun r => Order.init r.order_date r.sku r.item_price r.shipping
      r.opensky_credits r.sales_tax r.restocking_fee r.cc_processing
      r.opensky_commission r.total_payment)
    rows [] k
  simpa using h

theorem payments_keys_mem (rows : List ParsedRow) (k : String) :
    k ∈ (read_opensky rows).2.map Prod.fst
      ↔ k ∈ rows.map (fun r => r.payment_date) := by
  rw [read_opensky_snd]
  have h := mem_keys_foldl (fun r => r.payment_date)
    (fun r p => p.update r.order_id r.total_payment)
    (fun r => Payment.init r.order_id r.total_payment)
    rows [] k
  simpa using h

/-- Two dicts with duplicate-free key sets that agree on key membership have
the same sorted key sequence. -/
theorem sortedKeys_eq_of_same_keys {β : Type} (m m' : List (String × β))
    (hnd : (m.map Prod.fst).Nodup) (hnd' : (m'.map Prod.fst).Nodup)
    (hmem : ∀ k, k ∈ m.map Prod.fst ↔ k ∈ m'.map Prod.fst) :
    sortedKeys m = sortedKeys m' := by
  haveI : IsTotal String strLe := ⟨strLe_total⟩
  haveI : IsTrans String strLe := ⟨fun _ _ _ => strLe_trans⟩
  haveI : IsAntisymm String strLe := ⟨fun _ _ => strLe_antisymm⟩
  have hperm : (m.map Prod.fst).Perm (m'.map Prod.fst) :=
    (List.perm_ext_iff_of_nodup hnd hnd').mpr hmem
  exact List.eq_of_perm_of_sorted
    ((List.perm_insertionSort strLe _).trans
      (hperm.trans (List.perm_insertionSort strLe _).symm))
    (List.sorted_insertionSort strLe _)
    (List.sorted_insertionSort strLe _)

/-- **C4.** The QIF output lists all order transactions before any payment
transaction (witnessed by the sequence of payee lines), order transactions
follow the ascending order of their order identifiers and payment
transactions the ascending order of their payment dates, and the payee
sequence does not depend on the order of the input rows. -/
theorem C4_orders_then_payments_sorted (cfg : Config) :
    (∀ (orders : List (String × Order)) (payments : List (String × Payment)),
      (write_qif cfg orders payments).filterMap payeeOf
        = (sortedKeys orders).map (fun k => "OpenSky order " ++ k)
          ++ (sortedKeys payments).map (fun _ => "OpenSky payment"))
    ∧ (∀ orders : List (String × Order), (sortedKeys orders).Sorted strLe)
    ∧ (∀ payments : List (String × Payment),
        (sortedKeys payments).Sorted strLe)
    ∧ (∀ rows rows' : List ParsedRow, rows.Perm rows' →
        (write_qif cfg (read_opensky rows).1
            (read_opensky rows).2).filterMap payeeOf
          = (write_qif cfg (read_opensky rows').1
              (read_opensky rows').2).filterMap payeeOf) := by
  haveI : IsTotal String strLe := ⟨strLe_total⟩
  haveI : IsTrans String strLe := ⟨fun _ _ _ => strLe_trans⟩
  refine ⟨payees_write_qif cfg, ?_, ?_, ?_⟩
  · intro orders
    exact List.sorted_insertionSort strLe _
  · intro payments
    exact List.sorted_insertionSort strLe _
  · intro rows rows' hp
    rw [payees_write_qif, payees_write_qif]
    have ho : sortedKeys (read_opensky rows).1
        = sortedKeys (read_opensky rows').1 := by
      apply sortedKeys_eq_of_same_keys _ _ (orders_keys_nodup rows)
        (orders_keys_nodup rows')
      intro k
      rw [orders_keys_mem, orders_keys_mem]
      exact (hp.map (fun r => r.order_id)).mem_iff
    have hpm : sortedKeys (read_opensky rows).2
        = sortedKeys (read_opensky rows').2 := by
      apply sortedKeys_eq_of_same_keys _ _ (payments_keys_nodup rows)
        (payments_keys_nodup rows')
      intro k
      rw [payments_keys_mem, payments_keys_mem]
      exact (hp.map (fun r => r.payment_date)).mem_iff
    rw [ho, hpm]

/-- Witness for C4: swapping two input rows leaves the payee sequence of the
output unchanged. -/
theorem C4_orders_then_payments_sorted_witness :
    (write_qif ⟨"cc", "cr", "co", "dep", "os", "sh", "re", "sa", "st"⟩
        (read_opensky
          [⟨"1002", "B", 2, 0, 0, 0, 0, 0, 0, 2, "2015-01-02", "2015-02-01"⟩,
           ⟨"1001", "A", 1, 0, 0, 0, 0, 0, 0, 1, "2015-01-01", "2015-02-01"⟩]).1
        (read_opensky
          [⟨"1002", "B", 2, 0, 0, 0, 0, 0, 0, 2, "2015-01-02", "2015-02-01"⟩,
           ⟨"1001", "A", 1, 0, 0, 0, 0, 0, 0, 1, "2015-01-01", "2015-02-01"⟩]).2).filterMap
      payeeOf
    = (write_qif ⟨"cc", "cr", "co", "dep", "os", "sh", "re", "sa", "st"⟩
        (read_opensky
          [⟨"1001", "A", 1, 0, 0, 0, 0, 0, 0, 1, "2015-01-01", "2015-02-01"⟩,
           ⟨"1002", "B", 2, 0, 0, 0, 0, 0, 0, 2, "2015-01-02", "2015-02-01"⟩]).1
        (read_opensky
          [⟨"1001", "A", 1, 0, 0, 0, 0, 0, 0, 1, "2015-01-01", "2015-02-01"⟩,
           ⟨"1002", "B", 2, 0, 0, 0, 0, 0, 0, 2, "2015-01-02", "2015-02-01"⟩]).2).filterMap
      payeeOf :=
  (C4_orders_then_payments_sorted
      ⟨"cc", "cr", "co", "dep", "os", "sh", "re", "sa", "st"⟩).2.2.2
    [⟨"1002", "B", 2, 0, 0, 0, 0, 0, 0, 2, "2015-01-02", "2015-02-01"⟩,
     ⟨"1001", "A", 1, 0, 0, 0, 0, 0, 0, 1, "2015-01-01", "2015-02-01"⟩]
    [⟨"1001", "A", 1, 0, 0, 0, 0, 0, 0, 1, "2015-01-01", "2015-02-01"⟩,
     ⟨"1002", "B", 2, 0, 0, 0, 0, 0, 0, 2, "2015-01-02", "2015-02-01"⟩]
    (List.Perm.swap _ _ _)

end OpenSky2Qif
